import Mathlib

/-!
# TechShop: the customer home screen and the category model

A shallow embedding of

* `bookshop-fe/src/screens/Customer/HomeScreen.js`: the search effect, `groupByCategory`,
  `handleAddToCart`;
* `bookshop-be/src/models/category.model.js`: `categorySchema`;

together with the cart and reservation operations that the specification describes.

JavaScript strings are modelled as lists of characters (`Str`), arrays as lists, plain objects
as insertion-ordered lists of own properties on top of `Object.prototype`, and a thrown
`TypeError` as `Except.error`.
-/

set_option autoImplicit false

namespace TechShop

/-! ## Strings -/

/-- A JavaScript string, as the sequence of its characters. -/
abbrev Str := List Char

/-- The Unicode character data that `String.prototype.toLowerCase` consults: the full lowercase
mapping of a character (one character, or several as for U+0130), and the `Cased` and
`Case_Ignorable` properties used by the `Final_Sigma` condition. -/
structure CaseData where
  lower : Char → List Char
  cased : Char → Bool
  caseIgnorable : Char → Bool

/-- GREEK CAPITAL LETTER SIGMA, U+03A3. -/
def capitalSigma : Char := Char.ofNat 0x3A3

/-- GREEK SMALL LETTER SIGMA, U+03C3. -/
def smallSigma : Char := Char.ofNat 0x3C3

/-- GREEK SMALL LETTER FINAL SIGMA, U+03C2. -/
def smallFinalSigma : Char := Char.ofNat 0x3C2

/-- Reading outwards from a position: zero or more case-ignorable characters and then a cased
letter. -/
def ignorablesThenCased (ucd : CaseData) : List Char → Bool
  | [] => false
  | c :: rest => ucd.cased c || (ucd.caseIgnorable c && ignorablesThenCased ucd rest)

/-- The `Final_Sigma` condition of the Unicode default case conversion: the sigma is preceded by
a cased letter followed by case-ignorable characters, and is not followed by case-ignorable
characters and then a cased letter. `before` is the text before the sigma, nearest character
first; `after` is the text behind it. -/
def isFinalSigma (ucd : CaseData) (before after : List Char) : Bool :=
  ignorablesThenCased ucd before && !ignorablesThenCased ucd after

/-- Lowercase the characters of `rest`, which stand behind the (reversed) text `before`. -/
def lowerFrom (ucd : CaseData) : List Char → List Char → Str
  | _, [] => []
  | before, c :: rest =>
    (if c = capitalSigma then
      (if isFinalSigma ucd before rest then [smallFinalSigma] else [smallSigma])
    else ucd.lower c) ++ lowerFrom ucd (c :: before) rest

/-- `String.prototype.toLowerCase`: every character is replaced by its lowercase mapping; the
capital sigma becomes the final sigma where `Final_Sigma` holds and the small sigma elsewhere. -/
def toLowerCase (ucd : CaseData) (s : Str) : Str :=
  lowerFrom ucd [] s

/-- The lowercase form that the piece `s` of a text takes where it stands, between the
(reversed) text `before` and the text `after`: as `lowerFrom`, with `after` behind `s` for the
`Final_Sigma` condition. `lowerFrom ucd before s` is the case of an empty `after`. -/
def lowerIn (ucd : CaseData) : List Char → List Char → List Char → Str
  | _, [], _ => []
  | before, c :: rest, after =>
    (if c = capitalSigma then
      (if isFinalSigma ucd before (rest ++ after) then [smallFinalSigma] else [smallSigma])
    else ucd.lower c) ++ lowerIn ucd (c :: before) rest after

/-- `String.prototype.includes`: `search` occurs in `s` at some index. -/
def includes : Str → Str → Bool
  | [], search => search.isPrefixOf []
  | c :: rest, search => search.isPrefixOf (c :: rest) || includes rest search

/-- The character data of the Basic Latin letters and of the Greek letters alpha and sigma;
every other character is mapped to itself and carries neither property. -/
def basicCaseData : CaseData where
  lower := fun c =>
    if 'A'.toNat ≤ c.toNat ∧ c.toNat ≤ 'Z'.toNat then [Char.ofNat (c.toNat + 32)]
    else if c = Char.ofNat 0x391 then [Char.ofNat 0x3B1]
    else if c = capitalSigma then [smallSigma]
    else [c]
  cased := fun c =>
    decide ('A'.toNat ≤ c.toNat ∧ c.toNat ≤ 'Z'.toNat) ||
    decide ('a'.toNat ≤ c.toNat ∧ c.toNat ≤ 'z'.toNat) ||
    decide (c ∈ [Char.ofNat 0x391, Char.ofNat 0x3B1, capitalSigma, smallSigma, smallFinalSigma])
  caseIgnorable := fun c => decide (c ∈ [Char.ofNat 0x27, '.', ':', '^', Char.ofNat 0x60])

/-! ## Products and the search effect -/

/-- The populated category of a product, as the home screen reads it. -/
structure CategoryRef where
  name : Str
deriving DecidableEq, Repr

/-- A product as returned by `productService.getAll()`; the fields the screen only displays
(`price`, `brand`, `image`) are kept as strings and numbers. -/
structure Product where
  _id : Str
  name : Str
  price : Nat
  unitInStock : Nat
  brand : Str
  image : Str
  category : CategoryRef
deriving DecidableEq, Repr

/-- The search effect of `HomeScreen` (the `useEffect` on `[search, products]`): the value it
passes to `setFilteredProducts`. A string is truthy exactly when it is non-empty. -/
def searchEffect (ucd : CaseData) (search : Str) (products : List Product) : List Product :=
  if search ≠ [] then
    products.filter (fun product =>
      includes (toLowerCase ucd product.name) (toLowerCase ucd search))
  else
    products

/-- The products whose lowercased name contains the lowercased search string, as the
specification words the search: one filter, with no separate case for the empty search. -/
def matchingProducts (ucd : CaseData) (search : Str) (products : List Product) : List Product :=
  products.filter (fun p => includes (toLowerCase ucd p.name) (toLowerCase ucd search))

/-- A product named "ΑΣ": GREEK CAPITAL LETTER ALPHA (U+0391), GREEK CAPITAL LETTER SIGMA. -/
def alphaSigma : Product :=
  ⟨"p0".toList, [Char.ofNat 0x391, capitalSigma], 10, 1, "Acme".toList, [], ⟨"Books".toList⟩⟩

/-- A product named "ΣΑΣ Phone" (capital sigma, capital alpha, capital sigma, then " Phone"). -/
def sigmaPhone : Product :=
  ⟨"p3".toList, [capitalSigma, Char.ofNat 0x391, capitalSigma] ++ " Phone".toList, 10, 1,
    "Acme".toList, [], ⟨"Phones".toList⟩⟩

/-- A product named "ΣΑ" (capital sigma, capital alpha). -/
def sigmaAlpha : Product :=
  ⟨"p4".toList, [capitalSigma, Char.ofNat 0x391], 10, 1, "Acme".toList, [], ⟨"Books".toList⟩⟩

/-! ## Grouping by category -/

/-- A thrown JavaScript `TypeError`. -/
inductive JSError where
  | typeError (message : String)
deriving DecidableEq, Repr

/-- The accumulator of `groupByCategory`, an object created by the literal `{}`: its own
properties, in insertion order. Every own property holds an array of products. -/
abbrev Groups := List (Str × List Product)

/-- The names of the properties that an object created by `{}` inherits from
`Object.prototype`. -/
def objectPrototypeKeys : List Str :=
  ["constructor", "hasOwnProperty", "isPrototypeOf", "propertyIsEnumerable", "toLocaleString",
    "toString", "valueOf", "__proto__", "__defineGetter__", "__defineSetter__",
    "__lookupGetter__", "__lookupSetter__"].map String.toList

/-- What reading `acc[key]` yields. -/
inductive PropertyValue where
  /-- No own and no inherited property: `undefined`, falsy. -/
  | undefined
  /-- An own property: an array of products, truthy even when empty. -/
  | array (items : List Product)
  /-- A value inherited from `Object.prototype` (a function, or the prototype object itself
  for `__proto__`): truthy, and without a `push` method. -/
  | inherited
deriving DecidableEq, Repr

/-- The own property `key` of the object, if it has one. -/
def ownProperty : Groups → Str → Option (List Product)
  | [], _ => none
  | (k, v) :: rest, key => if k = key then some v else ownProperty rest key

/-- Reading `acc[key]`: the own property, else the one inherited along the prototype chain. -/
def getProperty (acc : Groups) (key : Str) : PropertyValue :=
  match ownProperty acc key with
  | some items => .array items
  | none => if key ∈ objectPrototypeKeys then .inherited else .undefined

/-- Giving the own property `key` the value `items`: an existing property keeps its place, a
new one is added behind the others. -/
def setProperty : Groups → Str → List Product → Groups
  | [], key, items => [(key, items)]
  | (k, v) :: rest, key, items =>
    if k = key then (k, items) :: rest else (k, v) :: setProperty rest key items

/-- The reducer of `groupByCategory`: `if (!acc[categoryName]) acc[categoryName] = [];` and then
`acc[categoryName].push(product)`. -/
def groupStep (acc : Groups) (product : Product) : Except JSError Groups :=
  let categoryName := product.category.name
  let acc1 :=
    match getProperty acc categoryName with
    | .undefined => setProperty acc categoryName []
    | _ => acc
  match getProperty acc1 categoryName with
  | .array items => .ok (setProperty acc1 categoryName (items ++ [product]))
  | .inherited => .error (.typeError "acc[categoryName].push is not a function")
  | .undefined => .error (.typeError "Cannot read properties of undefined (reading push)")

/-- The function `groupByCategory` of `HomeScreen`: `products.reduce(..., {})`. -/
def groupByCategory (products : List Product) : Except JSError Groups :=
  products.foldlM groupStep []

/-- The own property names of the grouped object, which `Object.keys` enumerates (integer-like
names first; nothing below depends on the order). -/
def ownKeys (g : Groups) : List Str :=
  g.map Prod.fst

/-- The category sections the screen renders: for every key of the grouped object the section
title and the keys (`product._id`) of its product cards. -/
def categorySections (g : Groups) : List (Str × List Str) :=
  (ownKeys g).map (fun categoryName =>
    (categoryName,
      match getProperty g categoryName with
      | .array items => items.map (fun product => product._id)
      | _ => []))

/-- The number of product cards over all rendered category sections. -/
def renderedCards (g : Groups) : Nat :=
  ((categorySections g).map (fun s => s.2.length)).sum

/-- The state of the accumulator after the products `done` have been reduced without a throw:
the own property names are distinct, the property `k` exists exactly when some product of `done`
has category name `k` and then holds those products in order, and the properties hold
`done.length` products together. -/
structure Grouped (acc : Groups) (done : List Product) : Prop where
  nodup : (ownKeys acc).Nodup
  own : ∀ k, ownProperty acc k =
    if done.filter (fun p => p.category.name = k) = [] then none
    else some (done.filter (fun p => p.category.name = k))
  total : (acc.map (fun kv => kv.2.length)).sum = done.length

/-- A catalogue of two products, the second in a category named "toString". -/
def sampleCatalogue : List Product :=
  [⟨"p1".toList, "Phone X".toList, 999, 3, "Acme".toList, [], ⟨"Phones".toList⟩⟩,
   ⟨"p2".toList, "USB cable".toList, 5, 40, "Acme".toList, [], ⟨"toString".toList⟩⟩]

/-! ## The category model -/

/-- A document given to the `Category` model, reduced to the two paths of `categorySchema`;
a path that is `undefined` or `null` is `none`. -/
structure CategoryDoc where
  name : Option Str
  description : Option Str
deriving DecidableEq, Repr

/-- A path that a Mongoose schema declares with `type: String`; `required` holds the message of
the `required: [true, message]` validator when the path declares one. -/
structure StringPath where
  path : String
  required : Option String
deriving DecidableEq, Repr

/-- The schema `categorySchema` of `category.model.js`. -/
def categorySchema : List StringPath :=
  [⟨"name", some "Category name is required"⟩, ⟨"description", none⟩]

/-- The value of a document at a path of `categorySchema`. -/
def CategoryDoc.get (doc : CategoryDoc) (path : String) : Option Str :=
  if path = "name" then doc.name
  else if path = "description" then doc.description
  else none

/-- The check behind Mongoose's `required` validator on a string path: the value is a string
of non-zero length. -/
def checkRequired : Option Str → Bool
  | some s => !s.isEmpty
  | none => false

/-- One entry of the `errors` of a Mongoose `ValidationError`. -/
structure ValidatorError where
  path : String
  message : String
deriving DecidableEq, Repr

/-- Validation of a category document against `categorySchema`: the validator errors, path by
path; the document is valid when there are none. -/
def validate (doc : CategoryDoc) : List ValidatorError :=
  categorySchema.filterMap (fun p =>
    match p.required with
    | some message => if checkRequired (doc.get p.path) then none else some ⟨p.path, message⟩
    | none => none)

/-! ## Cart state and the reservation validator -/

/-- Modelled from the spec: the `CartLine` of §3, a product reference by identifier and a
requested quantity (an integer, at least 1 in a well-formed cart). The cart context
(`context/CartContext`) is not among the sources. -/
structure CartLine where
  productId : Str
  quantity : Int
deriving DecidableEq, Repr

/-- Modelled from the spec: the `Cart` of §3, the cart lines in insertion order, one per product
identifier. -/
abbrev Cart := List CartLine

/-- Modelled from the spec: the local input error of §4.1 and §7. -/
inductive CartError where
  | InvalidQuantity
deriving DecidableEq, Repr

/-- Modelled from the spec: `addOrIncrement(productId, quantity)` of §4.1. If the product is
absent a new line with the given quantity is inserted (behind the others); if present the
existing quantity is incremented; the call fails with `InvalidQuantity` if the resulting
quantity is not positive. -/
def addOrIncrement (cart : Cart) (productId : Str) (quantity : Int) : Except CartError Cart :=
  match cart.find? (fun line => line.productId = productId) with
  | none =>
    if quantity ≤ 0 then .error .InvalidQuantity
    else .ok (cart ++ [⟨productId, quantity⟩])
  | some line =>
    if line.quantity + quantity ≤ 0 then .error .InvalidQuantity
    else .ok (cart.map (fun l =>
      if l.productId = productId then ⟨l.productId, l.quantity + quantity⟩ else l))

/-- Modelled from the spec: `addToCart(product)` of the cart context, which `HomeScreen` obtains
from `useCart()`: `addOrIncrement` on the product's identifier with the default quantity 1. -/
def addToCart (cart : Cart) (product : Product) : Except CartError Cart :=
  addOrIncrement cart product._id 1

/-- The alert `handleAddToCart` shows: title and message. -/
def addedAlert (product : Product) : Str × Str :=
  ("Success".toList, product.name ++ " has been added to the cart.".toList)

/-- The handler `handleAddToCart` of `HomeScreen`: `addToCart(product)`, then the alert. -/
def handleAddToCart (cart : Cart) (product : Product) : Except CartError (Cart × (Str × Str)) :=
  match addToCart cart product with
  | .ok cart1 => .ok (cart1, addedAlert product)
  | .error e => .error e

/-- Modelled from the spec: the reasons of a rejected line, §4.2. -/
inductive RejectReason where
  | NotFound
  | OutOfStock
deriving DecidableEq, Repr

/-- Modelled from the spec: the `ReservationResult` of §3. -/
inductive ReservationResult where
  | Satisfied (quantity : Int)
  | PartiallySatisfied (availableQuantity : Nat)
  | Rejected (reason : RejectReason)
deriving DecidableEq, Repr

/-- Modelled from the spec: an inventory snapshot, the mapping from product identifier to
`unitInStock` that `getSnapshot` returns (§6); a product missing from it has no entry. -/
abbrev InventorySnapshot := Str → Option Nat

/-- Modelled from the spec: the result of §4.2 for one cart line, the four rules in the order
the specification lists them. -/
def reconcileLine (snapshot : InventorySnapshot) (line : CartLine) : ReservationResult :=
  match snapshot line.productId with
  | none => .Rejected .NotFound
  | some unitInStock =>
    if line.quantity ≤ (unitInStock : Int) then .Satisfied line.quantity
    else if 0 < unitInStock ∧ (unitInStock : Int) < line.quantity then
      .PartiallySatisfied unitInStock
    else .Rejected .OutOfStock

/-- Modelled from the spec: `reconcile(cartLines, inventorySnapshot)` of §4.2, one result per
cart line, order preserved. The reservation validator is not among the sources. -/
def reconcile (cartLines : List CartLine) (snapshot : InventorySnapshot) :
    List ReservationResult :=
  cartLines.map (reconcileLine snapshot)

/-! # Theorems -/

/-! ## Substring search and lowercasing: basic facts -/

theorem includes_iff_sublist_run (s search : Str) : includes s search = true ↔ search <:+: s := by
  induction s with
  | nil =>
    simp [includes, List.isPrefixOf_iff_prefix]
  | cons c rest ih =>
    simp only [includes, Bool.or_eq_true, List.isPrefixOf_iff_prefix, ih]
    rw [List.infix_cons_iff]

theorem includes_iff (s search : Str) :
    includes s search = true ↔ ∃ pre post, s = pre ++ search ++ post := by
  rw [includes_iff_sublist_run]
  constructor
  · rintro ⟨pre, post, h⟩
    exact ⟨pre, post, h.symm⟩
  · rintro ⟨pre, post, h⟩
    exact ⟨pre, post, h.symm⟩

theorem lowerFrom_of_no_sigma (ucd : CaseData) (s : Str) (h : capitalSigma ∉ s)
    (before : List Char) : lowerFrom ucd before s = s.flatMap ucd.lower := by
  induction s generalizing before with
  | nil => rfl
  | cons c rest ih =>
    have hc : c ≠ capitalSigma := fun e => h (by simp [e])
    have hr : capitalSigma ∉ rest := fun e => h (List.mem_cons_of_mem _ e)
    simp [lowerFrom, hc, ih hr]

theorem toLowerCase_of_no_sigma (ucd : CaseData) (s : Str) (h : capitalSigma ∉ s) :
    toLowerCase ucd s = s.flatMap ucd.lower :=
  lowerFrom_of_no_sigma ucd s h []

theorem lowerFrom_eq_lowerIn (ucd : CaseData) (s before : List Char) :
    lowerFrom ucd before s = lowerIn ucd before s [] := by
  induction s generalizing before with
  | nil => rfl
  | cons c rest ih => simp [lowerFrom, lowerIn, ih]

theorem lowerFrom_append (ucd : CaseData) (a b before : List Char) :
    lowerFrom ucd before (a ++ b) =
      lowerIn ucd before a b ++ lowerFrom ucd (a.reverse ++ before) b := by
  induction a generalizing before with
  | nil => simp [lowerIn]
  | cons c rest ih => simp [lowerFrom, lowerIn, ih]

theorem lowerIn_of_no_sigma (ucd : CaseData) (s : Str) (h : capitalSigma ∉ s)
    (before after : List Char) : lowerIn ucd before s after = s.flatMap ucd.lower := by
  induction s generalizing before with
  | nil => rfl
  | cons c rest ih =>
    have hc : c ≠ capitalSigma := fun e => h (by simp [e])
    have hr : capitalSigma ∉ rest := fun e => h (List.mem_cons_of_mem _ e)
    simp [lowerIn, hc, ih hr]

/-- The lowercased text splits at any piece of it: the lowercase form of what stands before the
piece, the form the piece takes in its place, and the lowercase form of what stands behind. -/
theorem toLowerCase_append_append (ucd : CaseData) (pre mid post : List Char) :
    toLowerCase ucd (pre ++ mid ++ post) =
      lowerIn ucd [] pre (mid ++ post) ++ lowerIn ucd pre.reverse mid post ++
        lowerFrom ucd (mid.reverse ++ pre.reverse) post := by
  unfold toLowerCase
  rw [List.append_assoc, lowerFrom_append, lowerFrom_append]
  simp

theorem mem_searchEffect (ucd : CaseData) (search : Str) (products : List Product)
    (hs : search ≠ []) (p : Product) :
    p ∈ searchEffect ucd search products ↔
      p ∈ products ∧ includes (toLowerCase ucd p.name) (toLowerCase ucd search) = true := by
  simp [searchEffect, hs, List.mem_filter]

/-! ## The search effect -/

/-- C1, as stated, fails at the product named "ΑΣ" (capital alpha, capital sigma) and the search
string "Σ": the search string is non-empty and is itself a contiguous substring of the name, yet
the product is not among the filtered products. The name lowercases to "ας" with the final
sigma, the search string to "σ". -/
theorem search_substring_match_fails :
    ([capitalSigma] : Str) ≠ [] ∧
    alphaSigma ∈ [alphaSigma] ∧
    (∃ pre mid post, alphaSigma.name = pre ++ mid ++ post ∧ mid = [capitalSigma] ∧
      toLowerCase basicCaseData mid = toLowerCase basicCaseData [capitalSigma]) ∧
    toLowerCase basicCaseData alphaSigma.name = [Char.ofNat 0x3B1, smallFinalSigma] ∧
    toLowerCase basicCaseData [capitalSigma] = [smallSigma] ∧
    alphaSigma ∉ searchEffect basicCaseData [capitalSigma] [alphaSigma] := by
  refine ⟨by decide, List.mem_singleton_self _, ?_, by decide, by decide, by decide⟩
  exact ⟨[Char.ofNat 0x391], [capitalSigma], [], by decide, rfl, rfl⟩

/-- C1, amended: for a non-empty search string `s`, a product is among the filtered products
as soon as its name contains a contiguous substring free of the capital sigma that has the same
lowercase form as `s`, and more generally as soon as it contains a contiguous substring whose
lowercase form, taken where the substring stands in the name, is the lowercase form of `s`;
conversely every filtered product is one of the products and its lowercased name contains the
lowercased `s`. -/
theorem search_case_insensitive_substring (ucd : CaseData) (products : List Product) (s : Str)
    (hs : s ≠ []) :
    (∀ p ∈ products, ∀ pre mid post, p.name = pre ++ mid ++ post → capitalSigma ∉ mid →
      toLowerCase ucd mid = toLowerCase ucd s → p ∈ searchEffect ucd s products) ∧
    (∀ p ∈ products, ∀ pre mid post, p.name = pre ++ mid ++ post →
      lowerIn ucd pre.reverse mid post = toLowerCase ucd s → p ∈ searchEffect ucd s products) ∧
    (∀ p ∈ searchEffect ucd s products,
      p ∈ products ∧ ∃ pre post, toLowerCase ucd p.name = pre ++ toLowerCase ucd s ++ post) := by
  have hplace : ∀ p ∈ products, ∀ pre mid post, p.name = pre ++ mid ++ post →
      lowerIn ucd pre.reverse mid post = toLowerCase ucd s →
      p ∈ searchEffect ucd s products := by
    intro p hp pre mid post hname hmid
    rw [mem_searchEffect ucd s products hs]
    refine ⟨hp, ?_⟩
    rw [includes_iff]
    refine ⟨lowerIn ucd [] pre (mid ++ post),
      lowerFrom ucd (mid.reverse ++ pre.reverse) post, ?_⟩
    rw [hname, toLowerCase_append_append, hmid]
  refine ⟨?_, hplace, ?_⟩
  · intro p hp pre mid post hname hsig hmid
    apply hplace p hp pre mid post hname
    rw [lowerIn_of_no_sigma ucd mid hsig, ← hmid, toLowerCase_of_no_sigma ucd mid hsig]
  · intro p hp
    rw [mem_searchEffect ucd s products hs] at hp
    exact ⟨hp.1, (includes_iff _ _).1 hp.2⟩

/-- The amended C1 at two inputs. The product "ΣΑΣ Phone" is found by the search "PHONE": its
substring "Phone" has no capital sigma and lowercases as "PHONE" does. The product "ΣΑ" is found
by the search "Σ": the sigma at the head of the name is not a final sigma, so in its place it
lowercases as "Σ" alone does. -/
theorem search_case_insensitive_substring_witness :
    ("PHONE".toList ≠ [] ∧
      sigmaPhone ∈ searchEffect basicCaseData "PHONE".toList [sigmaPhone]) ∧
    (([capitalSigma] : Str) ≠ [] ∧
      sigmaAlpha ∈ searchEffect basicCaseData [capitalSigma] [sigmaAlpha]) :=
  ⟨⟨by decide,
      (search_case_insensitive_substring basicCaseData [sigmaPhone] "PHONE".toList
        (by decide)).1 sigmaPhone (List.mem_singleton_self _)
        [capitalSigma, Char.ofNat 0x391, capitalSigma, ' '] "Phone".toList []
        (by decide) (by decide) (by decide)⟩,
    ⟨by decide,
      (search_case_insensitive_substring basicCaseData [sigmaAlpha] [capitalSigma]
        (by decide)).2.1 sigmaAlpha (List.mem_singleton_self _)
        [] [capitalSigma] [Char.ofNat 0x391]
        (by decide) (by decide)⟩⟩

/-- C2: for every search string, empty or not, the search effect yields exactly the filter of
the products by "the lowercased name contains the lowercased search", in the original order
(it is a sublist of the products, and a product is kept as often as it occurs); the empty
search yields every product. -/
theorem searchEffect_eq_matchingProducts (ucd : CaseData) (search : Str)
    (products : List Product) :
    searchEffect ucd search products = matchingProducts ucd search products ∧
    (searchEffect ucd search products).Sublist products ∧
    (∀ p, (searchEffect ucd search products).count p =
      if includes (toLowerCase ucd p.name) (toLowerCase ucd search) = true
      then products.count p else 0) ∧
    searchEffect ucd [] products = products := by
  have heq : searchEffect ucd search products = matchingProducts ucd search products := by
    unfold searchEffect matchingProducts
    split
    · rfl
    · rename_i hs
      have hs2 : search = [] := by simpa using hs
      subst hs2
      symm
      rw [List.filter_eq_self]
      intro p _
      cases h : toLowerCase ucd p.name <;> simp [toLowerCase, lowerFrom, includes]
  refine ⟨heq, ?_, ?_, ?_⟩
  · rw [heq]
    exact List.filter_sublist _
  · intro p
    rw [heq, matchingProducts]
    split
    · rename_i h
      exact List.count_filter h
    · rename_i h
      apply List.count_eq_zero_of_not_mem
      intro hmem
      exact h (List.mem_filter.1 hmem).2
  · simp [searchEffect]

/-! ## Grouping by category: the accumulator -/

theorem ownProperty_setProperty (acc : Groups) (key k : Str) (items : List Product) :
    ownProperty (setProperty acc key items) k =
      if key = k then some items else ownProperty acc k := by
  induction acc with
  | nil => simp [setProperty, ownProperty]
  | cons kv rest ih =>
    obtain ⟨k0, v0⟩ := kv
    by_cases h0 : k0 = key
    · subst h0
      by_cases h1 : k0 = k <;> simp [setProperty, ownProperty, h1]
    · by_cases h1 : k0 = k
      · subst h1
        simp [setProperty, ownProperty, h0, Ne.symm h0]
      · simp [setProperty, ownProperty, h0, h1, ih]

theorem setProperty_setProperty (acc : Groups) (key : Str) (a b : List Product) :
    setProperty (setProperty acc key a) key b = setProperty acc key b := by
  induction acc with
  | nil => simp [setProperty]
  | cons kv rest ih =>
    obtain ⟨k0, v0⟩ := kv
    by_cases h0 : k0 = key <;> simp [setProperty, h0, ih]

theorem ownProperty_eq_none_iff (acc : Groups) (key : Str) :
    ownProperty acc key = none ↔ key ∉ ownKeys acc := by
  induction acc with
  | nil => simp [ownProperty, ownKeys]
  | cons kv rest ih =>
    obtain ⟨k0, v0⟩ := kv
    by_cases h0 : k0 = key
    · simp [ownProperty, ownKeys, h0]
    · simp only [ownKeys] at ih
      simp [ownProperty, ownKeys, h0, ih, Ne.symm h0]

theorem ownKeys_setProperty (acc : Groups) (key : Str) (items : List Product) :
    ownKeys (setProperty acc key items) =
      if key ∈ ownKeys acc then ownKeys acc else ownKeys acc ++ [key] := by
  induction acc with
  | nil => simp [setProperty, ownKeys]
  | cons kv rest ih =>
    obtain ⟨k0, v0⟩ := kv
    simp only [ownKeys] at ih
    by_cases h0 : k0 = key
    · simp [setProperty, ownKeys, h0]
    · simp only [setProperty, h0, ownKeys, List.map_cons, ih, if_false, List.mem_cons,
        Ne.symm h0, false_or]
      split <;> simp

theorem totalLength_setProperty (acc : Groups) (key : Str) (items : List Product) :
    ((setProperty acc key items).map (fun kv => kv.2.length)).sum +
        ((ownProperty acc key).getD []).length =
      (acc.map (fun kv => kv.2.length)).sum + items.length := by
  induction acc with
  | nil => simp [setProperty, ownProperty]
  | cons kv rest ih =>
    obtain ⟨k0, v0⟩ := kv
    by_cases h0 : k0 = key
    · simp [setProperty, ownProperty, h0]
      omega
    · simp only [setProperty, ownProperty, h0, if_false, List.map_cons, List.sum_cons]
      omega

/-- For a category name that is not a property of `Object.prototype`, the reducer adds the
product behind the products already stored under that name. -/
theorem groupStep_ok (acc : Groups) (product : Product)
    (h : product.category.name ∉ objectPrototypeKeys) :
    groupStep acc product =
      .ok (setProperty acc product.category.name
        ((ownProperty acc product.category.name).getD [] ++ [product])) := by
  unfold groupStep getProperty
  cases hown : ownProperty acc product.category.name with
  | none =>
    simp [h, hown, ownProperty_setProperty, setProperty_setProperty]
  | some items =>
    simp [hown]

/-- When the category name is a property of `Object.prototype` and no own property shadows it,
the reducer throws. -/
theorem groupStep_error (acc : Groups) (product : Product)
    (h : product.category.name ∈ objectPrototypeKeys)
    (hown : ownProperty acc product.category.name = none) :
    groupStep acc product = .error (.typeError "acc[categoryName].push is not a function") := by
  unfold groupStep getProperty
  simp [h, hown]

theorem Grouped.empty : Grouped [] [] :=
  ⟨by simp [ownKeys], by simp [ownProperty], by simp⟩

theorem Grouped.step {acc : Groups} {done : List Product} (hg : Grouped acc done)
    (product : Product) :
    Grouped (setProperty acc product.category.name
      ((ownProperty acc product.category.name).getD [] ++ [product])) (done ++ [product]) := by
  have hold : (ownProperty acc product.category.name).getD [] =
      done.filter (fun p => p.category.name = product.category.name) := by
    rw [hg.own]
    split
    · rename_i h
      simp [h]
    · simp
  refine ⟨?_, ?_, ?_⟩
  · rw [ownKeys_setProperty]
    split
    · exact hg.nodup
    · rename_i hk
      exact List.Nodup.append hg.nodup (List.nodup_singleton _) (by simpa using hk)
  · intro k
    rw [ownProperty_setProperty, hold]
    by_cases hk : product.category.name = k
    · subst hk
      simp [List.filter_append]
    · simp [hk, List.filter_append, hg.own k]
  · have := totalLength_setProperty acc product.category.name
      ((ownProperty acc product.category.name).getD [] ++ [product])
    rw [hg.total] at this
    simp only [List.length_append, List.length_singleton] at this ⊢
    omega

theorem foldlM_groupStep_ok (rest : List Product) (acc : Groups) (done : List Product)
    (hg : Grouped acc done) (h : ∀ p ∈ rest, p.category.name ∉ objectPrototypeKeys) :
    ∃ g, rest.foldlM groupStep acc = .ok g ∧ Grouped g (done ++ rest) := by
  induction rest generalizing acc done with
  | nil => exact ⟨acc, rfl, by simpa using hg⟩
  | cons p rest ih =>
    have hp := h p (List.mem_cons_self _ _)
    have hrest : ∀ q ∈ rest, q.category.name ∉ objectPrototypeKeys :=
      fun q hq => h q (List.mem_cons_of_mem _ hq)
    obtain ⟨g, hfold, hgr⟩ := ih _ _ (hg.step p) hrest
    refine ⟨g, ?_, by simpa using hgr⟩
    rw [List.foldlM_cons, groupStep_ok acc p hp]
    exact hfold

/-- Away from the property names of `Object.prototype`, `groupByCategory` returns an object
in the `Grouped` state of its whole input. -/
theorem groupByCategory_grouped (products : List Product)
    (h : ∀ p ∈ products, p.category.name ∉ objectPrototypeKeys) :
    ∃ g, groupByCategory products = .ok g ∧ Grouped g products := by
  simpa using foldlM_groupStep_ok products [] [] Grouped.empty h

theorem Grouped.mem_ownKeys {g : Groups} {products : List Product} (hg : Grouped g products)
    (k : Str) : k ∈ ownKeys g ↔ ∃ p ∈ products, p.category.name = k := by
  rw [← not_iff_not, ← ownProperty_eq_none_iff, hg.own k]
  by_cases hf : products.filter (fun p => p.category.name = k) = []
  · rw [if_pos hf]
    simp only [true_iff]
    rintro ⟨p, hp, hk⟩
    have : p ∈ products.filter (fun p => p.category.name = k) := by
      simp [List.mem_filter, hp, hk]
    simp [hf] at this
  · rw [if_neg hf]
    obtain ⟨p, hp⟩ := List.exists_mem_of_ne_nil _ hf
    simp only [List.mem_filter, decide_eq_true_eq] at hp
    constructor
    · intro e
      cases e
    · intro hne
      exact absurd ⟨p, hp.1, hp.2⟩ hne

theorem Grouped.getProperty_of_mem {g : Groups} {products : List Product}
    (hg : Grouped g products) (k : Str) (hk : k ∈ ownKeys g) :
    getProperty g k = .array (products.filter (fun p => p.category.name = k)) := by
  have hne : ownProperty g k ≠ none := fun h => (ownProperty_eq_none_iff g k).1 h hk
  have hown := hg.own k
  by_cases hf : products.filter (fun p => p.category.name = k) = []
  · rw [if_pos hf] at hown
    exact absurd hown hne
  · rw [if_neg hf] at hown
    simp [getProperty, hown]

theorem getProperty_ownKeys (g : Groups) (h : (ownKeys g).Nodup) :
    (ownKeys g).map (fun k => getProperty g k) = g.map (fun kv => PropertyValue.array kv.2) := by
  induction g with
  | nil => rfl
  | cons kv rest ih =>
    obtain ⟨k0, v0⟩ := kv
    simp only [ownKeys, List.map_cons, List.nodup_cons] at h ih ⊢
    have hhead : getProperty ((k0, v0) :: rest) k0 = .array v0 := by
      simp [getProperty, ownProperty]
    have htail : ∀ k ∈ rest.map Prod.fst,
        getProperty ((k0, v0) :: rest) k = getProperty rest k := by
      intro k hk
      have hne : k0 ≠ k := fun e => h.1 (e ▸ hk)
      simp [getProperty, ownProperty, hne]
    rw [hhead, ← ih h.2]
    congr 1
    exact List.map_congr_left htail

theorem renderedCards_eq_total (g : Groups) (h : (ownKeys g).Nodup) :
    renderedCards g = (g.map (fun kv => kv.2.length)).sum := by
  have hmap := getProperty_ownKeys g h
  have hlen := congrArg (List.map (fun v : PropertyValue =>
    match v with
    | .array items => items.length
    | _ => 0)) hmap
  simp only [List.map_map] at hlen
  unfold renderedCards categorySections
  simp only [List.map_map]
  have e1 : ((fun s : Str × List Str => s.2.length) ∘ fun categoryName =>
      (categoryName,
        match getProperty g categoryName with
        | .array items => items.map (fun product => product._id)
        | _ => [])) =
      ((fun v : PropertyValue =>
        match v with
        | .array items => items.length
        | _ => 0) ∘ fun k => getProperty g k) := by
    funext k
    simp only [Function.comp]
    cases getProperty g k <;> simp
  rw [e1, hlen]
  congr 1

/-- When no category name is a property name of `Object.prototype`,
`groupByCategory` returns an object that has the key `k` exactly when some product has category
name `k`, and whose value at such a key is the list of the input products of that category,
in input order. -/
theorem groupByCategory_groups (products : List Product)
    (h : ∀ p ∈ products, p.category.name ∉ objectPrototypeKeys) :
    ∃ g, groupByCategory products = .ok g ∧
      (∀ k, k ∈ ownKeys g ↔ ∃ p ∈ products, p.category.name = k) ∧
      (∀ k, k ∈ ownKeys g →
        getProperty g k = .array (products.filter (fun p => p.category.name = k))) := by
  obtain ⟨g, hok, hg⟩ := groupByCategory_grouped products h
  exact ⟨g, hok, hg.mem_ownKeys, hg.getProperty_of_mem⟩

/-- When no category name is a property name of `Object.prototype`,
the groups have distinct names, a product of the input lies in the group `k` exactly when `k` is
its category name, the rendered sections show as many cards as there are products, and no group
is empty. -/
theorem groupByCategory_partitions (products : List Product)
    (h : ∀ p ∈ products, p.category.name ∉ objectPrototypeKeys) :
    ∃ g, groupByCategory products = .ok g ∧
      (ownKeys g).Nodup ∧
      (∀ p ∈ products, p.category.name ∈ ownKeys g) ∧
      (∀ p ∈ products, ∀ k ∈ ownKeys g, ∀ items, getProperty g k = .array items →
        (p ∈ items ↔ k = p.category.name)) ∧
      (∀ p k items, getProperty g k = .array items →
        items.count p = if k = p.category.name then products.count p else 0) ∧
      renderedCards g = products.length ∧
      (∀ kv ∈ g, kv.2 ≠ []) := by
  obtain ⟨g, hok, hg⟩ := groupByCategory_grouped products h
  have hget : ∀ k items, getProperty g k = .array items →
      items = products.filter (fun p => p.category.name = k) := by
    intro k items hgk
    have hk : k ∈ ownKeys g := by
      by_contra hk
      have hnone := (ownProperty_eq_none_iff g k).2 hk
      simp only [getProperty, hnone] at hgk
      split at hgk <;> simp at hgk
    rw [hg.getProperty_of_mem k hk] at hgk
    injection hgk with e
    exact e.symm
  refine ⟨g, hok, hg.nodup, ?_, ?_, ?_, ?_, ?_⟩
  · intro p hp
    exact (hg.mem_ownKeys _).2 ⟨p, hp, rfl⟩
  · intro p hp k _ items hgk
    rw [hget k items hgk]
    simp only [List.mem_filter, decide_eq_true_eq, hp, true_and]
    exact eq_comm
  · intro p k items hgk
    rw [hget k items hgk]
    split
    · rename_i hk
      exact List.count_filter (by simp [hk])
    · rename_i hk
      apply List.count_eq_zero_of_not_mem
      intro hmem
      simp only [List.mem_filter, decide_eq_true_eq] at hmem
      exact hk hmem.2.symm
  · rw [renderedCards_eq_total g hg.nodup, hg.total]
  · rintro ⟨k, v⟩ hkv hv
    simp only at hv
    subst hv
    have hk : k ∈ ownKeys g := List.mem_map.2 ⟨(k, []), hkv, rfl⟩
    obtain ⟨p, hp, hpk⟩ := (hg.mem_ownKeys k).1 hk
    have hown := hg.own k
    have hf : products.filter (fun q => q.category.name = k) ≠ [] := by
      intro hf
      have : p ∈ products.filter (fun q => q.category.name = k) := by
        simp [List.mem_filter, hp, hpk]
      simp [hf] at this
    rw [if_neg hf] at hown
    -- the first own property named `k` is the pair itself, the names being distinct
    have hfirst : ∀ (g : Groups), (ownKeys g).Nodup → (k, ([] : List Product)) ∈ g →
        ownProperty g k = some [] := by
      intro g
      induction g with
      | nil => simp
      | cons kv rest ih =>
        obtain ⟨k0, v0⟩ := kv
        intro hnd hmem
        simp only [ownKeys, List.map_cons, List.nodup_cons] at hnd
        rcases List.mem_cons.1 hmem with e | hin
        · injection e with e1 e2
          simp [ownProperty, e1, e2]
        · have hne : k0 ≠ k := by
            intro e
            apply hnd.1
            rw [e]
            exact List.mem_map.2 ⟨(k, []), hin, rfl⟩
          simp only [ownProperty, hne, if_false]
          exact ih hnd.2 hin
    rw [hfirst g hg.nodup hkv] at hown
    injection hown with e
    exact hf e.symm

/-- C3 fails on the code: whenever some product of the list has a category name that is a
property name of `Object.prototype` (such as "constructor"), `groupByCategory` throws a
`TypeError` and returns no grouped object at all. -/
theorem groupByCategory_throws_on_prototype_name (products : List Product)
    (h : ∃ p ∈ products, p.category.name ∈ objectPrototypeKeys) :
    groupByCategory products =
      .error (.typeError "acc[categoryName].push is not a function") := by
  obtain ⟨p, hp, hpk⟩ := h
  -- split the input at its first product with such a category name
  have hsplit : ∀ (l : List Product), (∃ p ∈ l, p.category.name ∈ objectPrototypeKeys) →
      ∃ good bad rest, l = good ++ bad :: rest ∧
        (∀ q ∈ good, q.category.name ∉ objectPrototypeKeys) ∧
        bad.category.name ∈ objectPrototypeKeys := by
    intro l
    induction l with
    | nil => simp
    | cons a l ih =>
      rintro ⟨q, hq, hqk⟩
      by_cases ha : a.category.name ∈ objectPrototypeKeys
      · exact ⟨[], a, l, rfl, by simp, ha⟩
      · rcases List.mem_cons.1 hq with e | hin
        · exact absurd (e ▸ hqk) ha
        · obtain ⟨good, bad, rest, hl, hgood, hbad⟩ := ih ⟨q, hin, hqk⟩
          refine ⟨a :: good, bad, rest, by simp [hl], ?_, hbad⟩
          intro r hr
          rcases List.mem_cons.1 hr with e | hin2
          · exact e ▸ ha
          · exact hgood r hin2
  obtain ⟨good, bad, rest, hl, hgood, hbad⟩ := hsplit products ⟨p, hp, hpk⟩
  obtain ⟨g, hok, hg⟩ := groupByCategory_grouped good hgood
  have hown : ownProperty g bad.category.name = none := by
    rw [hg.own]
    have : good.filter (fun q => q.category.name = bad.category.name) = [] := by
      rw [List.filter_eq_nil_iff]
      intro q hq
      have := hgood q hq
      simp only [decide_eq_true_eq]
      intro e
      exact this (e ▸ hbad)
    simp [this]
  unfold groupByCategory at hok ⊢
  rw [hl, List.foldlM_append, hok]
  simp only [Except.bind, bind, List.foldlM_cons, groupStep_error g bad hbad hown]

/-! ## The category model: validation -/

/-- C4, as stated, fails at the category whose name is the empty string: it has a name, and
validation still reports "Category name is required". -/
theorem category_with_name_invalid :
    (⟨some [], none⟩ : CategoryDoc).name.isSome = true ∧
    validate ⟨some [], none⟩ = [⟨"name", "Category name is required"⟩] ∧
    validate ⟨some [], none⟩ ≠ [] := by
  decide

/-- C4, amended: validation of a category whose name is absent, or is the empty string, fails
with the message "Category name is required" on the path `name`; a category with a non-empty
name is valid, with or without a description. -/
theorem category_name_required (description : Option Str) (c : Char) (s : Str) :
    validate ⟨none, description⟩ = [⟨"name", "Category name is required"⟩] ∧
    validate ⟨some [], description⟩ = [⟨"name", "Category name is required"⟩] ∧
    validate ⟨some (c :: s), description⟩ = [] := by
  refine ⟨?_, ?_, ?_⟩ <;>
    simp [validate, categorySchema, CategoryDoc.get, checkRequired]

/-! ## The reservation validator -/

/-- C5: `reconcile` returns one result per cart line, in the order of the lines; for a line with
requested quantity at least 1 the result is `Rejected(NotFound)` if the product is missing from
the snapshot, `Satisfied(q)` if `unitInStock >= q`, `PartiallySatisfied(unitInStock)` if
`0 < unitInStock < q`, and `Rejected(OutOfStock)` if `unitInStock = 0`. -/
theorem reconcile_one_result_per_line (cartLines : List CartLine)
    (snapshot : InventorySnapshot) :
    (reconcile cartLines snapshot).length = cartLines.length ∧
    ∀ (i : Nat) (line : CartLine), cartLines[i]? = some line → 1 ≤ line.quantity →
      (snapshot line.productId = none →
        (reconcile cartLines snapshot)[i]? = some (.Rejected .NotFound)) ∧
      (∀ unitInStock : Nat, snapshot line.productId = some unitInStock →
        (line.quantity ≤ (unitInStock : Int) →
          (reconcile cartLines snapshot)[i]? = some (.Satisfied line.quantity)) ∧
        (0 < unitInStock → (unitInStock : Int) < line.quantity →
          (reconcile cartLines snapshot)[i]? = some (.PartiallySatisfied unitInStock)) ∧
        (unitInStock = 0 →
          (reconcile cartLines snapshot)[i]? = some (.Rejected .OutOfStock))) := by
  refine ⟨by simp [reconcile], ?_⟩
  intro i line hi hq
  have hres : (reconcile cartLines snapshot)[i]? = some (reconcileLine snapshot line) := by
    simp [reconcile, hi]
  rw [hres]
  refine ⟨?_, ?_⟩
  · intro hnone
    simp [reconcileLine, hnone]
  · intro unitInStock hsome
    refine ⟨?_, ?_, ?_⟩
    · intro hle
      simp [reconcileLine, hsome, hle]
    · intro hpos hlt
      have : ¬ line.quantity ≤ (unitInStock : Int) := by omega
      simp [reconcileLine, hsome, this, hpos, hlt]
    · intro hzero
      subst hzero
      have hlt : (0 : Int) < line.quantity := by omega
      simp [reconcileLine, hsome, hlt]

/-! ## Adding to the cart -/

theorem find?_productId_eq_none (cart : Cart) (productId : Str) :
    cart.find? (fun line => line.productId = productId) = none ↔
      productId ∉ cart.map CartLine.productId := by
  simp only [List.find?_eq_none, decide_eq_true_eq, List.mem_map, not_exists, not_and]

/-- C7: in a well-formed cart (every quantity at least 1), `addOrIncrement` with a quantity of at
least 1 inserts a new line with that quantity behind the others when the product is absent, and
otherwise adds the quantity to the product's line and leaves every other line as it is;
`handleAddToCart` does so with the quantity 1 and then shows its alert. -/
theorem addOrIncrement_inserts_or_increments (cart : Cart) (product : Product) (quantity : Int)
    (hquantity : 1 ≤ quantity) (hcart : ∀ l ∈ cart, 1 ≤ l.quantity) :
    (product._id ∉ cart.map CartLine.productId →
      addOrIncrement cart product._id quantity = .ok (cart ++ [⟨product._id, quantity⟩])) ∧
    (product._id ∈ cart.map CartLine.productId →
      addOrIncrement cart product._id quantity =
        .ok (cart.map (fun l =>
          if l.productId = product._id then ⟨l.productId, l.quantity + quantity⟩ else l))) ∧
    (product._id ∉ cart.map CartLine.productId →
      handleAddToCart cart product = .ok (cart ++ [⟨product._id, 1⟩], addedAlert product)) ∧
    (product._id ∈ cart.map CartLine.productId →
      handleAddToCart cart product =
        .ok (cart.map (fun l =>
          if l.productId = product._id then ⟨l.productId, l.quantity + 1⟩ else l),
          addedAlert product)) := by
  have habsent : ∀ q : Int, 1 ≤ q → product._id ∉ cart.map CartLine.productId →
      addOrIncrement cart product._id q = .ok (cart ++ [⟨product._id, q⟩]) := by
    intro q hq h
    have hfind := (find?_productId_eq_none cart product._id).2 h
    have hq0 : ¬ q ≤ 0 := by omega
    simp [addOrIncrement, hfind, hq0]
  have hpresent : ∀ q : Int, 1 ≤ q → product._id ∈ cart.map CartLine.productId →
      addOrIncrement cart product._id q =
        .ok (cart.map (fun l =>
          if l.productId = product._id then ⟨l.productId, l.quantity + q⟩ else l)) := by
    intro q hq h
    cases hfind : cart.find? (fun line => line.productId = product._id) with
    | none => exact absurd h ((find?_productId_eq_none cart product._id).1 hfind)
    | some line =>
      have hmem : line ∈ cart := List.mem_of_find?_eq_some hfind
      have hl := hcart line hmem
      have hsum : ¬ line.quantity + q ≤ 0 := by omega
      simp [addOrIncrement, hfind, hsum]
  refine ⟨habsent quantity hquantity, hpresent quantity hquantity, ?_, ?_⟩
  · intro h
    simp [handleAddToCart, addToCart, habsent 1 (le_refl 1) h]
  · intro h
    simp [handleAddToCart, addToCart, hpresent 1 (le_refl 1) h]

/-- The failing input of C3: the single product of a category named "constructor". -/
theorem groupByCategory_throws_on_prototype_name_witness :
    (∃ p ∈ [(⟨"p1".toList, "Laptop".toList, 1200, 2, "Acme".toList, [],
        ⟨"constructor".toList⟩⟩ : Product)], p.category.name ∈ objectPrototypeKeys) ∧
    groupByCategory [⟨"p1".toList, "Laptop".toList, 1200, 2, "Acme".toList, [],
        ⟨"constructor".toList⟩⟩] =
      .error (.typeError "acc[categoryName].push is not a function") :=
  ⟨⟨_, List.mem_singleton_self _, by decide⟩,
    groupByCategory_throws_on_prototype_name _ ⟨_, List.mem_singleton_self _, by decide⟩⟩

/-- C8 fails on the code: with an empty search both products of `sampleCatalogue` are filtered
products, yet grouping them throws, so there is no grouped object, neither product is in any
group and no card is rendered. -/
theorem groupByCategory_loses_sampleCatalogue :
    searchEffect basicCaseData [] sampleCatalogue = sampleCatalogue ∧
    sampleCatalogue.length = 2 ∧
    groupByCategory (searchEffect basicCaseData [] sampleCatalogue) =
      .error (.typeError "acc[categoryName].push is not a function") ∧
    ∀ g, groupByCategory (searchEffect basicCaseData [] sampleCatalogue) ≠ .ok g := by
  have h : groupByCategory (searchEffect basicCaseData [] sampleCatalogue) =
      .error (.typeError "acc[categoryName].push is not a function") := by rfl
  refine ⟨rfl, rfl, h, ?_⟩
  intro g hg
  rw [h] at hg
  cases hg

/-- C7 at the cart holding two units of "p1": adding "p1" again gives three units, adding "p2"
appends a line with one unit. -/
theorem addOrIncrement_inserts_or_increments_witness :
    ((1 : Int) ≤ 1 ∧ ∀ l ∈ ([⟨"p1".toList, 2⟩] : Cart), 1 ≤ l.quantity) ∧
    handleAddToCart [⟨"p1".toList, 2⟩] ⟨"p1".toList, "Phone X".toList, 999, 3, [], [], ⟨"Phones".toList⟩⟩ =
      .ok ([⟨"p1".toList, 3⟩], addedAlert ⟨"p1".toList, "Phone X".toList, 999, 3, [], [], ⟨"Phones".toList⟩⟩) ∧
    handleAddToCart [⟨"p1".toList, 2⟩] ⟨"p2".toList, "Laptop".toList, 1200, 2, [], [], ⟨"Laptops".toList⟩⟩ =
      .ok ([⟨"p1".toList, 2⟩, ⟨"p2".toList, 1⟩],
        addedAlert ⟨"p2".toList, "Laptop".toList, 1200, 2, [], [], ⟨"Laptops".toList⟩⟩) :=
  ⟨⟨le_refl 1, by decide⟩,
    (addOrIncrement_inserts_or_increments [⟨"p1".toList, 2⟩] ⟨"p1".toList, "Phone X".toList, 999, 3, [], [], ⟨"Phones".toList⟩⟩
      1 (le_refl 1) (by decide)).2.2.2 (by decide),
    (addOrIncrement_inserts_or_increments [⟨"p1".toList, 2⟩] ⟨"p2".toList, "Laptop".toList, 1200, 2, [], [], ⟨"Laptops".toList⟩⟩
      1 (le_refl 1) (by decide)).2.2.1 (by decide)⟩

end TechShop
